import Mathlib

/-!
Verification of the `ion` HTTP resource client core (package `ion`,
files `endpoint.go`, `api.go`, `storage.go`, `limiter.go`, `locker.go`).

The Go code is shallowly embedded: Go byte strings and Go `string`s are
modelled as Lean `String`s (Go converts between `[]byte` and `string`
bijectively and none of the verified properties depend on the byte/char
distinction except inside the MD5 fingerprint, where the UTF-8 bytes are
computed explicitly); Go maps are association lists; machine words inside
MD5 are `Nat` reduced `% 2^32`; `time.Duration` is `Int` (nanoseconds).
External collaborators (the JSON codec, the HTTP transport, the pluggable
rate limiter and the authorization callback) are supplied as explicit
oracle values, mirroring the boundary treatment of §6 of the design notes.
-/

namespace Ion

/-! ### Association lists: the model of Go maps (`map[string]V`) -/

/-- Go map read `m[k]` (`nil`/absent is `none`). -/
def alookup {α : Type} (k : String) : List (String × α) → Option α
  | [] => none
  | p :: t => if p.1 = k then some p.2 else alookup k t

/-- Go map write `m[k] = v`. -/
def alSet {α : Type} (s : List (String × α)) (k : String) (v : α) : List (String × α) :=
  match s with
  | [] => [(k, v)]
  | p :: t => if p.1 = k then (k, v) :: t else p :: alSet t k v

theorem alookup_alSet_self {α : Type} (s : List (String × α)) (k : String) (v : α) :
    alookup k (alSet s k v) = some v := by
  induction s with
  | nil => simp [alSet, alookup]
  | cons p t ih =>
    by_cases h : p.1 = k
    · simp [alSet, h, alookup]
    · simp [alSet, h, alookup, ih]

theorem alookup_alSet_ne {α : Type} (s : List (String × α)) (k k' : String) (v : α)
    (h : k ≠ k') : alookup k (alSet s k' v) = alookup k s := by
  induction s with
  | nil =>
    simp only [alSet, alookup]
    rw [if_neg (Ne.symm h)]
  | cons p t ih =>
    by_cases hp : p.1 = k'
    · simp only [alSet, if_pos hp, alookup]
      rw [if_neg (Ne.symm h), hp, if_neg (Ne.symm h)]
    · simp only [alSet, if_neg hp, alookup, ih]

/-- Looking a key up in an association list with distinct keys is invariant
under permutation of the entries (the Go map enumeration order). -/
theorem alookup_perm {α : Type} {h₁ h₂ : List (String × α)} (hp : h₁.Perm h₂)
    (hnd : (h₁.map Prod.fst).Nodup) (k : String) : alookup k h₁ = alookup k h₂ := by
  induction hp with
  | nil => rfl
  | cons x _ ih =>
    rename_i l₁ l₂ _
    simp only [List.map_cons, List.nodup_cons] at hnd
    simp only [alookup, ih hnd.2]
  | swap x y l =>
    simp only [List.map_cons, List.nodup_cons, List.mem_cons] at hnd
    by_cases hx : x.1 = k <;> by_cases hy : y.1 = k <;>
      simp_all [alookup]
  | trans p₁₂ _ ih₁ ih₂ =>
    rename_i l₁ l₂ l₃ _
    have hnd₂ : (l₂.map Prod.fst).Nodup := ((p₁₂.map Prod.fst).nodup_iff).1 hnd
    exact (ih₁ hnd).trans (ih₂ hnd₂)

/-! ### UTF-8 encoding and lowercase hex rendering -/

/-- UTF-8 encoding of a single Unicode scalar value. -/
def utf8Char (c : Char) : List Nat :=
  let n := c.toNat
  if n < 128 then [n]
  else if n < 2048 then [192 + n / 64, 128 + n % 64]
  else if n < 65536 then [224 + n / 4096, 128 + (n / 64) % 64, 128 + n % 64]
  else [240 + n / 262144, 128 + (n / 4096) % 64, 128 + (n / 64) % 64, 128 + n % 64]

/-- The UTF-8 bytes of a string (what Go hashes when it writes a `string`
into an `md5` hasher). -/
def utf8Bytes (s : String) : List Nat :=
  s.data.flatMap utf8Char

def hexDigits : List Char :=
  "0123456789abcdef".data

def hexDigit (n : Nat) : Char := hexDigits.getD n '0'

/-- Lowercase hex rendering of a byte list, as `hex.EncodeToString`. -/
def hexString (bs : List Nat) : String :=
  String.mk (bs.flatMap fun b => [hexDigit (b / 16 % 16), hexDigit (b % 16)])

theorem hexDigit_mem (n : Nat) : hexDigit n ∈ hexDigits := by
  unfold hexDigit
  rcases Nat.lt_or_ge n 16 with h | h
  · interval_cases n <;> decide
  · have h16 : hexDigits.length ≤ n := by simpa [hexDigits] using h
    rw [List.getD_eq_default _ _ h16]
    decide

theorem hexString_mem {bs : List Nat} {c : Char} (h : c ∈ (hexString bs).data) :
    c ∈ hexDigits := by
  have h' : c ∈ bs.flatMap (fun b => [hexDigit (b / 16 % 16), hexDigit (b % 16)]) := h
  simp only [List.mem_flatMap, List.mem_cons, List.not_mem_nil, or_false,
    List.mem_singleton] at h'
  rcases h' with ⟨b, _, h | h⟩ <;> exact h ▸ hexDigit_mem _

theorem hexChars_length (bs : List Nat) :
    (bs.flatMap fun b => [hexDigit (b / 16 % 16), hexDigit (b % 16)]).length =
      2 * bs.length := by
  induction bs with
  | nil => rfl
  | cons b t ih =>
    simp only [List.flatMap_cons, List.length_append, List.length_cons, ih,
      List.length_nil]
    omega

theorem hexString_length (bs : List Nat) : (hexString bs).length = 2 * bs.length := by
  have : (hexString bs).length =
      (bs.flatMap fun b => [hexDigit (b / 16 % 16), hexDigit (b % 16)]).length := rfl
  rw [this, hexChars_length]

/-! ### MD5 (`crypto/md5`), 128-bit digest over a byte list -/

def md5K : List Nat :=
  [0xd76aa478, 0xe8c7b756, 0x242070db, 0xc1bdceee,
   0xf57c0faf, 0x4787c62a, 0xa8304613, 0xfd469501,
   0x698098d8, 0x8b44f7af, 0xffff5bb1, 0x895cd7be,
   0x6b901122, 0xfd987193, 0xa679438e, 0x49b40821,
   0xf61e2562, 0xc040b340, 0x265e5a51, 0xe9b6c7aa,
   0xd62f105d, 0x02441453, 0xd8a1e681, 0xe7d3fbc8,
   0x21e1cde6, 0xc33707d6, 0xf4d50d87, 0x455a14ed,
   0xa9e3e905, 0xfcefa3f8, 0x676f02d9, 0x8d2a4c8a,
   0xfffa3942, 0x8771f681, 0x6d9d6122, 0xfde5380c,
   0xa4beea44, 0x4bdecfa9, 0xf6bb4b60, 0xbebfbc70,
   0x289b7ec6, 0xeaa127fa, 0xd4ef3085, 0x04881d05,
   0xd9d4d039, 0xe6db99e5, 0x1fa27cf8, 0xc4ac5665,
   0xf4292244, 0x432aff97, 0xab9423a7, 0xfc93a039,
   0x655b59c3, 0x8f0ccc92, 0xffeff47d, 0x85845dd1,
   0x6fa87e4f, 0xfe2ce6e0, 0xa3014314, 0x4e0811a1,
   0xf7537e82, 0xbd3af235, 0x2ad7d2bb, 0xeb86d391]

def md5S : List Nat :=
  [7, 12, 17, 22, 7, 12, 17, 22, 7, 12, 17, 22, 7, 12, 17, 22,
   5, 9, 14, 20, 5, 9, 14, 20, 5, 9, 14, 20, 5, 9, 14, 20,
   4, 11, 16, 23, 4, 11, 16, 23, 4, 11, 16, 23, 4, 11, 16, 23,
   6, 10, 15, 21, 6, 10, 15, 21, 6, 10, 15, 21, 6, 10, 15, 21]

def rotl32 (x s : Nat) : Nat :=
  (((x <<< s) % 4294967296) ||| (x >>> (32 - s)))

/-- One MD5 round `i` on state `(a, b, c, d)` for message block `blk`. -/
def md5Round (blk : List Nat) (st : Nat × Nat × Nat × Nat) (i : Nat) :
    Nat × Nat × Nat × Nat :=
  let (a, b, c, d) := st
  let f :=
    if i < 16 then (b &&& c) ||| ((b ^^^ 4294967295) &&& d)
    else if i < 32 then (d &&& b) ||| ((d ^^^ 4294967295) &&& c)
    else if i < 48 then b ^^^ c ^^^ d
    else c ^^^ (b ||| (d ^^^ 4294967295))
  let g :=
    if i < 16 then i
    else if i < 32 then (5 * i + 1) % 16
    else if i < 48 then (3 * i + 5) % 16
    else (7 * i) % 16
  let m := (blk.getD (4 * g) 0) + 256 * (blk.getD (4 * g + 1) 0) +
           65536 * (blk.getD (4 * g + 2) 0) + 16777216 * (blk.getD (4 * g + 3) 0)
  let t := (f + a + md5K.getD i 0 + m) % 4294967296
  let b' := (b + rotl32 t (md5S.getD i 0)) % 4294967296
  (d, b', b, c)

def md5Block (st : Nat × Nat × Nat × Nat) (blk : List Nat) : Nat × Nat × Nat × Nat :=
  let (a0, b0, c0, d0) := st
  let (a, b, c, d) := (List.range 64).foldl (md5Round blk) (a0, b0, c0, d0)
  ((a0 + a) % 4294967296, (b0 + b) % 4294967296,
   (c0 + c) % 4294967296, (d0 + d) % 4294967296)

def le64 (n : Nat) : List Nat :=
  [n % 256, n / 256 % 256, n / 65536 % 256, n / 16777216 % 256,
   n / 4294967296 % 256, n / 1099511627776 % 256,
   n / 281474976710656 % 256, n / 72057594037927936 % 256]

def le32 (n : Nat) : List Nat :=
  [n % 256, n / 256 % 256, n / 65536 % 256, n / 16777216 % 256]

def md5Pad (msg : List Nat) : List Nat :=
  let z := (119 - (msg.length % 64)) % 64
  msg ++ [128] ++ List.replicate z 0 ++ le64 ((msg.length * 8) % 18446744073709551616)

def chunks64Go : Nat → List Nat → List (List Nat)
  | 0, _ => []
  | fuel + 1, l => if l = [] then [] else l.take 64 :: chunks64Go fuel (l.drop 64)

def chunks64 (l : List Nat) : List (List Nat) :=
  chunks64Go l.length l

/-- The 16-byte MD5 digest of a byte list. -/
def md5 (msg : List Nat) : List Nat :=
  let (a, b, c, d) :=
    (chunks64 (md5Pad msg)).foldl md5Block (0x67452301, 0xefcdab89, 0x98badcfe, 0x10325476)
  le32 a ++ le32 b ++ le32 c ++ le32 d

theorem md5_length (msg : List Nat) : (md5 msg).length = 16 := by
  unfold md5
  rcases hs : (chunks64 (md5Pad msg)).foldl md5Block
      (0x67452301, 0xefcdab89, 0x98badcfe, 0x10325476) with ⟨a, b, c, d⟩
  simp [le32]

/-! ### The request fingerprint (`Endpoint.hash`, endpoint.go:318-349) -/

/-- `r.Header`: a Go `map[string][]string`, as its (arbitrary-order)
enumeration. -/
abbrev HeaderList := List (String × List String)

/-- The exact string the Go code feeds into the MD5 hasher:
`fmt.Sprintf("%s\n%s\n%s\n", method, URL, e.key)`, then — only when the
explicit override `e.key` is empty — one `"Name: v1, v2\n"` line per header
name in lexicographically sorted order, then the body bytes and a final
newline when the request has a body. -/
def hashKeyString (method url key : String) (headers : HeaderList)
    (body : Option String) : String :=
  let base := method ++ "\n" ++ url ++ "\n" ++ key ++ "\n"
  if key = "" then
    let hk := (headers.map Prod.fst).insertionSort (· ≤ ·)
    let withHeaders := hk.foldl
      (fun acc k =>
        acc ++ k ++ ": " ++ String.intercalate ", " ((alookup k headers).getD []) ++ "\n")
      base
    match body with
    | none => withHeaders
    | some b => withHeaders ++ b ++ "\n"
  else base

/-- `Endpoint.hash`: lowercase hex of the MD5 digest of the key string. -/
def endpointHash (method url key : String) (headers : HeaderList)
    (body : Option String) : String :=
  hexString (md5 (utf8Bytes (hashKeyString method url key headers body)))

theorem endpointHash_length (method url key : String) (headers : HeaderList)
    (body : Option String) : (endpointHash method url key headers body).length = 32 := by
  unfold endpointHash
  rw [hexString_length, md5_length]

theorem endpointHash_mem_hexDigits (method url key : String) (headers : HeaderList)
    (body : Option String) {c : Char}
    (h : c ∈ (endpointHash method url key headers body).data) : c ∈ hexDigits :=
  hexString_mem h

/-- With no override, the key string only depends on the header *set*:
sorting the names makes any two enumerations of the same Go map render
identically. -/
theorem hashKeyString_perm (method url body : String) {h₁ h₂ : HeaderList}
    (hnd : (h₁.map Prod.fst).Nodup) (hp : h₁.Perm h₂) :
    hashKeyString method url "" h₁ (some body) =
    hashKeyString method url "" h₂ (some body) := by
  unfold hashKeyString
  simp only [if_pos rfl]
  have hnames : (h₁.map Prod.fst).insertionSort (· ≤ ·) =
      (h₂.map Prod.fst).insertionSort (· ≤ ·) := by
    refine List.eq_of_perm_of_sorted ?_ (List.sorted_insertionSort _ _)
      (List.sorted_insertionSort _ _)
    exact (List.perm_insertionSort _ _).trans
      ((hp.map Prod.fst).trans (List.perm_insertionSort _ _).symm)
  have hlook : (fun (acc : String) k =>
        acc ++ k ++ ": " ++ String.intercalate ", " ((alookup k h₁).getD []) ++ "\n") =
      (fun acc k =>
        acc ++ k ++ ": " ++ String.intercalate ", " ((alookup k h₂).getD []) ++ "\n") := by
    funext acc k
    rw [alookup_perm hp hnd k]
  rw [hnames, hlook]

/-- C1: two requests with the same method, URL, header set (in any
enumeration order) and body bytes, and no explicit cache-key override,
produce a byte-identical fingerprint, because header names are sorted
before hashing; the fingerprint is a 32-character lowercase-hex rendering
of the 128-bit MD5 digest. -/
theorem c1_fingerprint_enumeration_invariant (m u b : String) (h₁ h₂ : HeaderList)
    (hnd : (h₁.map Prod.fst).Nodup) (hp : h₁.Perm h₂) :
    endpointHash m u "" h₁ (some b) = endpointHash m u "" h₂ (some b) ∧
    (endpointHash m u "" h₁ (some b)).length = 32 ∧
    ∀ c ∈ (endpointHash m u "" h₁ (some b)).data, c ∈ hexDigits := by
  refine ⟨?_, endpointHash_length m u "" h₁ (some b),
    fun c hc => endpointHash_mem_hexDigits m u "" h₁ (some b) hc⟩
  unfold endpointHash
  rw [hashKeyString_perm m u b hnd hp]

theorem c1_witness :
    (([("B", ["2"]), ("A", ["1"])] : HeaderList).map Prod.fst).Nodup ∧
    ([("B", ["2"]), ("A", ["1"])] : HeaderList).Perm [("A", ["1"]), ("B", ["2"])] ∧
    endpointHash "GET" "https://h/p" "" [("B", ["2"]), ("A", ["1"])] (some "b") =
      endpointHash "GET" "https://h/p" "" [("A", ["1"]), ("B", ["2"])] (some "b") :=
  ⟨by decide, List.Perm.swap ("A", ["1"]) ("B", ["2"]) [],
    (c1_fingerprint_enumeration_invariant "GET" "https://h/p" "b"
      [("B", ["2"]), ("A", ["1"])] [("A", ["1"]), ("B", ["2"])] (by decide)
      (List.Perm.swap ("A", ["1"]) ("B", ["2"]) [])).1⟩

/-- C2, counterexample: with the explicit override `"fixed-key"` the cache
key computed by `Endpoint.hash` is *not* the override string verbatim — it
is the 32-character MD5 hex digest of `METHOD\nURL\noverride\n`, so it can
never equal the 9-character string `"fixed-key"`. -/
theorem c2_counterexample :
    endpointHash "POST" "https://api.test.com/x" "fixed-key" [] (some "body1") ≠
      "fixed-key" := by
  intro h
  have h32 := endpointHash_length "POST" "https://api.test.com/x" "fixed-key" []
    (some "body1")
  rw [h] at h32
  exact absurd h32 (by decide)

/-- C2, amended: when a non-empty override key is set, the fingerprint
ignores headers and body entirely — two invocations with the same method,
URL and override but different bodies produce the same cache key — and that
key is the lowercase-hex MD5 digest of `METHOD\nURL\noverride\n`, not the
override string itself. -/
theorem c2_override_key_ignores_headers_and_body (m u k b₁ b₂ : String)
    (h₁ h₂ : HeaderList) (hk : k ≠ "") :
    endpointHash m u k h₁ (some b₁) = endpointHash m u k h₂ (some b₂) ∧
    endpointHash m u k h₁ (some b₁) =
      hexString (md5 (utf8Bytes (m ++ "\n" ++ u ++ "\n" ++ k ++ "\n"))) := by
  have h1 : endpointHash m u k h₁ (some b₁) =
      hexString (md5 (utf8Bytes (m ++ "\n" ++ u ++ "\n" ++ k ++ "\n"))) := by
    unfold endpointHash hashKeyString
    rw [if_neg hk]
  have h2 : endpointHash m u k h₂ (some b₂) =
      hexString (md5 (utf8Bytes (m ++ "\n" ++ u ++ "\n" ++ k ++ "\n"))) := by
    unfold endpointHash hashKeyString
    rw [if_neg hk]
  exact ⟨h1.trans h2.symm, h1⟩

theorem c2_witness :
    ("fixed-key" : String) ≠ "" ∧
    endpointHash "GET" "https://h/p" "fixed-key" [("A", ["1"])] (some "b1") =
      endpointHash "GET" "https://h/p" "fixed-key" [] (some "b2") :=
  ⟨by decide, (c2_override_key_ignores_headers_and_body "GET" "https://h/p" "fixed-key"
    "b1" "b2" [("A", ["1"])] [] (by decide)).1⟩

/-! ### Response cache: the byte store and the generic helpers (storage.go)

The `Store` values are Go `[]byte`, modelled as `String`; the in-memory
baseline `memory` is a `map[string][]byte`, modelled as an association
list. The structured-value codec used by the generic `Get`/`Set` helpers
(`json.Marshal`/`json.Unmarshal` at an arbitrary type `T`) is an external
collaborator and is passed in as `enc`/`dec` functions. -/

abbrev StoreT := List (String × String)

/-- `memory.Get`: plain map read, never an error; absent keys yield nil. -/
def memGet (s : StoreT) (k : String) : Option String :=
  alookup k s

/-- `memory.Set`: plain map write; the `ttl` argument is ignored
(the baseline store has no expiry). -/
def memSet (s : StoreT) (k : String) (v : String) (_ttl : Int) : StoreT :=
  alSet s k v

/-- `memory.Delete`. -/
def memDelete (s : StoreT) (k : String) : StoreT :=
  s.filter (fun p => p.1 ≠ k)

/-- The generic `Get[T]` helper: reads the byte store, returns 0 when the
key is not found (or holds no bytes), -1 when unmarshalling fails, and the
number of stored bytes (paired with the decoded value) on success. -/
def storeGet {α : Type} (dec : String → Option α) (s : StoreT) (k : String) :
    Int × Option α :=
  match memGet s k with
  | none => (0, none)
  | some bs =>
    if bs = "" then (0, none)
    else
      match dec bs with
      | none => (-1, none)
      | some v => ((bs.length : Int), some v)

/-- The generic `Set[T]` helper: marshals the value, sums the variadic TTL
arguments, writes through the store and returns the marshalled byte count
(-1 when marshalling fails). -/
def storeSet {α : Type} (enc : α → Option String) (s : StoreT) (k : String) (v : α)
    (ttl : List Int) : Int × StoreT :=
  match enc v with
  | none => (-1, s)
  | some b => ((b.length : Int), memSet s k b (ttl.foldl (· + ·) 0))

theorem string_length_pos {s : String} (h : s ≠ "") : 0 < s.length := by
  rcases s with ⟨l⟩
  cases l with
  | nil => exact absurd rfl h
  | cons c t => simp [String.length]

/-- C5, counterexample: the baseline in-memory store ignores TTL entirely.
The store state after `Set("k", "v", 1h)` is byte-for-byte the state after
`Set("k", "v", 0)` — no expiry information exists — and `Get("k")` on that
state returns the value with byte count 2 (> 0). Since `Get` is a function
of the store state alone, it returns the same positive count at any later
time, so "after the key's TTL elapses, Get(key) returns 0" is false.
(The codec here is a concrete marshaller prepending a `q`.) -/
theorem c5_counterexample :
    (storeSet (fun v => some ("q" ++ v)) [] "k" "v" [3600000000000]).2 =
      (storeSet (fun v => some ("q" ++ v)) [] "k" "v" [0]).2 ∧
    storeGet (fun b => if b.take 1 = "q" then some (b.drop 1) else none)
      (storeSet (fun v => some ("q" ++ v)) [] "k" "v" [3600000000000]).2 "k" =
      (2, some "v") := by
  constructor
  · rfl
  · rfl

/-- C5, amended: for the baseline in-memory store through the generic
helpers — `memory.Set` ignores the TTL argument outright (entries never
expire, the documented §9 limitation), an immediate `Get` after
`Set(key, v, 1h)` returns `v` with a positive byte count, a never-set key
yields 0, and a failed unmarshal yields -1. -/
theorem c5_memory_store_helpers {α : Type} (dec : String → Option α)
    (enc : α → Option String) (s : StoreT) (k : String) (v : α) (bv bs : String)
    (t₁ t₂ : Int) :
    (memSet s k bv t₁ = memSet s k bv t₂) ∧
    (enc v = some bv → bv ≠ "" → dec bv = some v →
      storeGet dec (storeSet enc s k v [3600000000000]).2 k =
        ((bv.length : Int), some v) ∧ 0 < (bv.length : Int)) ∧
    (alookup k s = none → storeGet dec s k = (0, none)) ∧
    (alookup k s = some bs → bs ≠ "" → dec bs = none →
      storeGet dec s k = (-1, none)) := by
  refine ⟨rfl, ?_, ?_, ?_⟩
  · intro he hne hd
    constructor
    · simp only [storeSet, he, storeGet, memGet, memSet, alookup_alSet_self,
        if_neg hne, hd]
    · exact_mod_cast string_length_pos hne
  · intro h
    simp only [storeGet, memGet, h]
  · intro h hne hd
    simp only [storeGet, memGet, h, if_neg hne, hd]

theorem c5_witness :
    ((fun v => some ("x" ++ v) : String → Option String) "v" = some "xv" ∧
      ("xv" : String) ≠ "" ∧
      (fun b => if b.take 1 = "x" then some (b.drop 1) else none : String → Option String)
        "xv" = some "v") ∧
    storeGet (fun b => if b.take 1 = "x" then some (b.drop 1) else none)
      (storeSet (fun v => some ("x" ++ v)) [] "k" "v" [3600000000000]).2 "k" =
      (2, some "v") :=
  ⟨⟨by decide, by decide, by decide⟩,
    ((c5_memory_store_helpers
        (fun b => if b.take 1 = "x" then some (b.drop 1) else none)
        (fun v => some ("x" ++ v)) [] "k" "v" "xv" "" 0 0).2.1
      (by decide) (by decide) (by decide)).1⟩

/-! ### Resource Descriptor (api.go): cache helpers, auth, run

`API.get`/`API.set` are the thin TTL-resolving helpers over the response
cache; `API.auth` caches bearer tokens under `"rest:tokens:" + host`;
`API.run` resolves auth and dispatches through the transport. The JSON
string codec used by the helpers (`json.Marshal`/`Unmarshal` at type
`string`), the `Authorization` callback and the HTTP client are external
collaborators passed as oracle values. -/

structure APIModel where
  cache : Int
  host : String
  hasAuthorization : Bool
  hasErrors : Bool
  hasLimiter : Bool
  name : String
deriving DecidableEq

structure Response where
  statusCode : Nat
  status : String
  body : String
deriving DecidableEq

/-- The external collaborators of one `execute` invocation: the body
serializer outcome (`Endpoint.reader`), the pluggable rate limiter outcome,
the `Authorization` callback outcome (token and `expires-in` duration), the
transport outcome, the mapped error produced by a configured `Errors`
handler, the JSON string codec, and the response decoder for the target
type `ρ` (with `zero` the Go zero value of `ρ`). -/
structure Env (ρ : Type) where
  strEnc : String → String
  strDec : String → Option String
  encodeBody : Except String String
  wait : Option String
  authFresh : Except String (String × Int)
  transport : Except String Response
  mappedErr : String
  dec : String → Except String ρ
  zero : ρ

/-- The TTL resolution done identically in `API.get` and `API.set`:
`if t <= 0 { t = a.Cache }`. -/
def resolveTTL (a : APIModel) (t : Int) : Int :=
  if t ≤ 0 then a.cache else t

/-- `API.get` (api.go:244-257): caching disabled when the resolved TTL is
non-positive, otherwise a read through the generic string helper. -/
def apiGet (a : APIModel) (strDec : String → Option String) (s : StoreT) (k : String)
    (t : Int) : Option String :=
  if resolveTTL a t ≤ 0 then none
  else
    let r := storeGet strDec s k
    if r.1 ≤ 0 then none else some (r.2.getD "")

/-- `API.set` (api.go:259-267). -/
def apiSet (a : APIModel) (strEnc : String → String) (s : StoreT) (k : String)
    (b : String) (t : Int) : Int × StoreT :=
  let t' := resolveTTL a t
  if t' ≤ 0 then (-1, s)
  else storeSet (fun v => some (strEnc v)) s k b [t']

/-- The token cache key `"rest:tokens:" + a.URL.Host` (api.go:227). -/
def tokenKey (a : APIModel) : String :=
  "rest:tokens:" ++ a.host

/-- `API.auth` (api.go:223-242): no-op without an Authorization callback;
otherwise a cached token is reused, or a fresh one is fetched, trimmed,
rejected when empty, and written to the cache. -/
def apiAuth {ρ : Type} (a : APIModel) (env : Env ρ) (s : StoreT) :
    Except String String × StoreT :=
  if a.hasAuthorization = false then (.ok "", s)
  else if (apiGet a env.strDec s (tokenKey a) 1).getD "" ≠ "" then
    (.ok ((apiGet a env.strDec s (tokenKey a) 1).getD ""), s)
  else
    match env.authFresh with
    | .error e => (.error e, s)
    | .ok (tkn, dexp) =>
      if tkn.trim = "" then (.error "token not found", s)
      else (.ok tkn.trim, (apiSet a env.strEnc s (tokenKey a) tkn.trim dexp).2)

/-- `API.run` (api.go:191-221): resolve auth, then dispatch through the
transport (the lazily-built client is not observable here; test mode is
off). The store is threaded because a token refresh writes to the cache. -/
def apiRun {ρ : Type} (a : APIModel) (env : Env ρ) (s : StoreT) :
    Except String Response × StoreT :=
  match apiAuth a env s with
  | (.error e, s') => (.error e, s')
  | (.ok _, s') =>
    match env.transport with
    | .error e => (.error e, s')
    | .ok r => (.ok r, s')

/-- C6: `get`/`set` use the positive per-call TTL override as the TTL
(the Descriptor default is then irrelevant); a non-positive override falls
back to the Descriptor default; and when the TTL still resolves
non-positive, `get` reports "not found" and `set` performs no write and
returns -1. -/
theorem c6_ttl_resolution (a : APIModel) (strEnc : String → String)
    (strDec : String → Option String) (s : StoreT) (k b : String) (t c : Int) :
    (0 < t → resolveTTL a t = t ∧
      apiGet a strDec s k t = apiGet { a with cache := c } strDec s k t ∧
      apiSet a strEnc s k b t = apiSet { a with cache := c } strEnc s k b t) ∧
    (t ≤ 0 → resolveTTL a t = a.cache) ∧
    (resolveTTL a t ≤ 0 →
      apiGet a strDec s k t = none ∧ apiSet a strEnc s k b t = (-1, s)) := by
  refine ⟨fun ht => ?_, fun ht => ?_, fun ht => ?_⟩
  · have h : ∀ x : APIModel, resolveTTL x t = t := fun x => if_neg (by omega)
    exact ⟨h a, by simp only [apiGet, h], by simp only [apiSet, h]⟩
  · exact if_pos ht
  · exact ⟨by simp only [apiGet, if_pos ht], by simp only [apiSet, if_pos ht]⟩

theorem c6_witness :
    (resolveTTL ⟨0, "h", false, false, false, "N"⟩ 0 ≤ 0) ∧
    apiGet ⟨0, "h", false, false, false, "N"⟩ (fun _ => none) [("k", "x")] "k" 0 =
      none ∧
    apiSet ⟨0, "h", false, false, false, "N"⟩ id [("k", "x")] "k" "b" 0 =
      (-1, [("k", "x")]) :=
  ⟨by decide,
    (c6_ttl_resolution ⟨0, "h", false, false, false, "N"⟩ id (fun _ => none)
      [("k", "x")] "k" "b" 0 0).2.2 (by decide)⟩

/-! ### The execution pipeline (`Endpoint.execute`, endpoint.go:226-316) -/

def hexDigitsU : List Char :=
  "0123456789ABCDEF".data

def isUnreservedByte (b : Nat) : Bool :=
  (48 ≤ b && b ≤ 57) || (65 ≤ b && b ≤ 90) || (97 ≤ b && b ≤ 122) ||
  b == 45 || b == 95 || b == 46 || b == 126

/-- `url.QueryEscape`: unreserved bytes kept, space becomes `+`, anything
else percent-encoded with uppercase hex. -/
def queryEscape (s : String) : String :=
  String.mk ((utf8Bytes s).flatMap fun b =>
    if b = 32 then ['+']
    else if isUnreservedByte b then [Char.ofNat b]
    else ['%', hexDigitsU.getD (b / 16 % 16) '0', hexDigitsU.getD (b % 16) '0'])

/-- `url.Values.Encode`: keys sorted, `k=v` pairs joined with `&`
(the endpoint builder keeps a single value per parameter name). -/
def valuesEncode (ps : List (String × String)) : String :=
  String.intercalate "&"
    (((ps.map Prod.fst).insertionSort (· ≤ ·)).map fun k =>
      queryEscape k ++ "=" ++ queryEscape ((alookup k ps).getD ""))

/-- The per-call request specification reaching `execute`: the endpoint
fields that the pipeline reads (`body` itself only through the serializer
oracle and the `isEmpty` reflection check, recorded as `bodyEmpty`). -/
structure EConfig where
  api : APIModel
  domainURL : Option String
  path : String
  method : String
  headers : List (String × String)
  params : List (String × String)
  key : String
  cache : Int
  hasLimiter : Bool
  bodyEmpty : Bool

/-- Step 2 of `execute`: default `Content-Type: application/json` when the
header is absent and the body is non-empty. -/
def contentHeaders (e : EConfig) : List (String × String) :=
  if alookup "Content-Type" e.headers = none ∧ e.bodyEmpty = false then
    alSet e.headers "Content-Type" "application/json"
  else e.headers

/-- Step 4: `scheme://host:port` + path, appending `?`+query only when the
encoded query is non-empty. -/
def execURL (e : EConfig) (u : String) : String :=
  u ++ e.path ++ (if valuesEncode e.params = "" then "" else "?" ++ valuesEncode e.params)

/-- The fingerprint/cache/lock key of one invocation: `e.hash(req)` where
the request carries the (possibly defaulted) headers as single-valued
lists and the serialized body. -/
@[reducible] def execKey (e : EConfig) (u body : String) : String :=
  endpointHash e.method (execURL e u) e.key
    ((contentHeaders e).map fun p => (p.1, [p.2])) (some body)

/-- Steps 9-10 tail: decode the resolved bytes unless they are empty. -/
def decodeStep {ρ : Type} (env : Env ρ) (b : String) (st : StoreT) :
    Except String ρ × StoreT :=
  if b = "" then (.ok env.zero, st)
  else
    match env.dec b with
    | .error er => (.error er, st)
    | .ok v => (.ok v, st)

/-- `Endpoint.wait`: the endpoint-level limiter wins over the
Descriptor-level one; no limiter means no wait. -/
def waitStep {ρ : Type} (e : EConfig) (env : Env ρ) : Option String :=
  if e.hasLimiter then env.wait
  else if e.api.hasLimiter then env.wait
  else none

/-- `Endpoint.execute` (endpoint.go:226-316): fail without an origin URL;
serialize the body; compute the fingerprint; consult the cache; on a miss
wait on the limiter, run the call, classify a status ≥ 400 as an upstream
error (mapped through `Errors` when configured, with the status text
substituted for an empty error body), otherwise write the body to the
cache; finally decode the resolved bytes. The keyed lock is the default
no-op guard and the metrics/log emissions have no observable effect here. -/
def execute {ρ : Type} (e : EConfig) (env : Env ρ) (s : StoreT) :
    Except String ρ × StoreT :=
  match e.domainURL with
  | none => (.error "domain url not found", s)
  | some u =>
    match env.encodeBody with
    | .error er => (.error er, s)
    | .ok body =>
      let key := execKey e u body
      match apiGet e.api env.strDec s key e.cache with
      | some b => decodeStep env b s
      | none =>
        match waitStep e env with
        | some er => (.error er, s)
        | none =>
          match apiRun e.api env s with
          | (.error er, s₁) => (.error er, s₁)
          | (.ok res, s₁) =>
            if 400 ≤ res.statusCode then
              (.error (if e.api.hasErrors then env.mappedErr
                else res.status ++ ": " ++
                  (if res.body = "" then res.status else res.body)), s₁)
            else
              decodeStep env res.body (apiSet e.api env.strEnc s₁ key res.body e.cache).2

theorem alookup_apiSet_ne (a : APIModel) (strEnc : String → String) (s : StoreT)
    (k k' b : String) (t : Int) (h : k ≠ k') :
    alookup k (apiSet a strEnc s k' b t).2 = alookup k s := by
  unfold apiSet
  by_cases hle : resolveTTL a t ≤ 0
  · rw [if_pos hle]
  · rw [if_neg hle]
    simp only [storeSet, memSet]
    exact alookup_alSet_ne s k k' (strEnc b) h

/-- A fingerprint key consists of hex digits only, so it can never be the
token cache key, which contains a colon. -/
theorem endpointHash_ne_tokenKey (m u k : String) (hs : HeaderList)
    (b : Option String) (a : APIModel) : endpointHash m u k hs b ≠ tokenKey a := by
  intro h
  have hc : (':' : Char) ∈ (tokenKey a).data := by
    have hd : (tokenKey a).data = "rest:tokens:".data ++ a.host.data :=
      String.data_append "rest:tokens:" a.host
    rw [hd]
    exact List.mem_append_left _ (by decide)
  rw [← h] at hc
  have hm : (':' : Char) ∈ hexDigits := endpointHash_mem_hexDigits m u k hs b hc
  exact absurd hm (by decide)

theorem execKey_ne_tokenKey (e : EConfig) (u body : String) (a : APIModel) :
    execKey e u body ≠ tokenKey a := by
  unfold execKey
  exact endpointHash_ne_tokenKey _ _ _ _ _ a

theorem alookup_apiAuth_ne {ρ : Type} (a : APIModel) (env : Env ρ) (s : StoreT)
    (k : String) (hk : k ≠ tokenKey a) :
    alookup k (apiAuth a env s).2 = alookup k s := by
  unfold apiAuth
  by_cases ha : a.hasAuthorization = false
  · rw [if_pos ha]
  · rw [if_neg ha]
    by_cases hb : (apiGet a env.strDec s (tokenKey a) 1).getD "" ≠ ""
    · rw [if_pos hb]
    · rw [if_neg hb]
      cases env.authFresh with
      | error e => rfl
      | ok p =>
        rcases p with ⟨tkn, dexp⟩
        by_cases ht : tkn.trim = ""
        · simp only [if_pos ht]
        · simp only [if_neg ht]
          exact alookup_apiSet_ne a env.strEnc s k (tokenKey a) tkn.trim dexp hk

theorem alookup_apiRun_ne {ρ : Type} (a : APIModel) (env : Env ρ) (s : StoreT)
    (k : String) (hk : k ≠ tokenKey a) :
    alookup k (apiRun a env s).2 = alookup k s := by
  have hauth := alookup_apiAuth_ne a env s k hk
  unfold apiRun
  rcases heq : apiAuth a env s with ⟨r, s'⟩
  rw [heq] at hauth
  cases r with
  | error e => exact hauth
  | ok tkn =>
    cases env.transport with
    | error e => exact hauth
    | ok res => exact hauth

theorem apiRun_error_of_transport {ρ : Type} (a : APIModel) (env : Env ρ) (s : StoreT)
    (er : String) (h : env.transport = .error er) :
    ∃ m, (apiRun a env s).1 = .error m := by
  unfold apiRun
  rcases heq : apiAuth a env s with ⟨r, s'⟩
  cases r with
  | error e => exact ⟨e, rfl⟩
  | ok tkn => rw [h]; exact ⟨er, rfl⟩

theorem apiRun_ok_transport {ρ : Type} (a : APIModel) (env : Env ρ) (s : StoreT)
    (r : Response) (h : (apiRun a env s).1 = .ok r) : env.transport = .ok r := by
  unfold apiRun at h
  rcases heq : apiAuth a env s with ⟨ar, s'⟩
  rw [heq] at h
  cases ar with
  | error e => exact absurd h (by simp)
  | ok tkn =>
    cases htr : env.transport with
    | error e => rw [htr] at h; exact absurd h (by simp)
    | ok res => rw [htr] at h; simp only [Except.ok.injEq] at h; rw [h]

/-- C3: a cache entry is written only after a response with status < 400 —
on an abort while waiting on the rate limiter, on a transport (or auth)
error, or on an upstream status ≥ 400, `execute` returns an error and the
store is unchanged at the fingerprint key (a token refresh may write under
`rest:tokens:<host>`, which is never a fingerprint key). -/
theorem c3_no_cache_write_on_error {ρ : Type} (e : EConfig) (env : Env ρ) (s : StoreT)
    (u body er : String)
    (hu : e.domainURL = some u) (hb : env.encodeBody = .ok body)
    (hmiss : apiGet e.api env.strDec s (execKey e u body) e.cache = none)
    (herr : waitStep e env = some er ∨
      (waitStep e env = none ∧ env.transport = .error er) ∨
      (waitStep e env = none ∧ ∃ r, env.transport = .ok r ∧ 400 ≤ r.statusCode)) :
    (∃ m, (execute e env s).1 = .error m) ∧
    alookup (execKey e u body) (execute e env s).2 =
      alookup (execKey e u body) s := by
  have hkeyne := execKey_ne_tokenKey e u body e.api
  have hrunpre := alookup_apiRun_ne e.api env s (execKey e u body) hkeyne
  rcases herr with hw | ⟨hw, htr⟩ | ⟨hw, r, htr, hst⟩
  · simp only [execute, hu, hb, hmiss, hw]
    exact ⟨⟨er, rfl⟩, trivial⟩
  · rcases hrun : apiRun e.api env s with ⟨rr, s₁⟩
    rw [hrun] at hrunpre
    cases rr with
    | error m =>
      simp only [execute, hu, hb, hmiss, hw, hrun]
      exact ⟨⟨m, rfl⟩, hrunpre⟩
    | ok res =>
      have hres : env.transport = .ok res :=
        apiRun_ok_transport e.api env s res (by rw [hrun])
      rw [htr] at hres
      exact absurd hres (by simp)
  · rcases hrun : apiRun e.api env s with ⟨rr, s₁⟩
    rw [hrun] at hrunpre
    cases rr with
    | error m =>
      simp only [execute, hu, hb, hmiss, hw, hrun]
      exact ⟨⟨m, rfl⟩, hrunpre⟩
    | ok res =>
      have hres : env.transport = .ok res :=
        apiRun_ok_transport e.api env s res (by rw [hrun])
      rw [htr] at hres
      simp only [Except.ok.injEq] at hres
      subst hres
      simp only [execute, hu, hb, hmiss, hw, hrun, if_pos hst]
      exact ⟨⟨_, rfl⟩, hrunpre⟩

theorem c3_witness :
    (waitStep
        (⟨⟨0, "h", false, false, false, "N"⟩, some "https://h", "/p", "GET", [], [],
          "", 0, true, true⟩ : EConfig)
        (⟨id, fun _ => none, .ok "", some "context canceled", .error "na", .error "x",
          "m", fun _ => .error "d", ()⟩ : Env Unit) = some "context canceled") ∧
    (∃ m, (execute
        (⟨⟨0, "h", false, false, false, "N"⟩, some "https://h", "/p", "GET", [], [],
          "", 0, true, true⟩ : EConfig)
        (⟨id, fun _ => none, .ok "", some "context canceled", .error "na", .error "x",
          "m", fun _ => .error "d", ()⟩ : Env Unit) []).1 = .error m) ∧
    alookup (execKey
        (⟨⟨0, "h", false, false, false, "N"⟩, some "https://h", "/p", "GET", [], [],
          "", 0, true, true⟩ : EConfig) "https://h" "")
      (execute
        (⟨⟨0, "h", false, false, false, "N"⟩, some "https://h", "/p", "GET", [], [],
          "", 0, true, true⟩ : EConfig)
        (⟨id, fun _ => none, .ok "", some "context canceled", .error "na", .error "x",
          "m", fun _ => .error "d", ()⟩ : Env Unit) []).2 =
      alookup (execKey
        (⟨⟨0, "h", false, false, false, "N"⟩, some "https://h", "/p", "GET", [], [],
          "", 0, true, true⟩ : EConfig) "https://h" "") [] :=
  ⟨rfl,
    c3_no_cache_write_on_error
      (⟨⟨0, "h", false, false, false, "N"⟩, some "https://h", "/p", "GET", [], [],
        "", 0, true, true⟩ : EConfig)
      (⟨id, fun _ => none, .ok "", some "context canceled", .error "na", .error "x",
        "m", fun _ => .error "d", ()⟩ : Env Unit)
      [] "https://h" "" "context canceled" rfl rfl rfl (Or.inl rfl)⟩

/-- C7: when the network call succeeds (status < 400) and the body was
written to the cache, a decode failure on those bytes is returned to the
caller while the freshly written cache entry is left in place (the stored
bytes are the JSON-marshalled body). -/
theorem c7_decode_failure_preserves_cache_entry {ρ : Type} (e : EConfig) (env : Env ρ)
    (s : StoreT) (u body de : String) (r : Response)
    (hu : e.domainURL = some u) (hb : env.encodeBody = .ok body)
    (hmiss : apiGet e.api env.strDec s (execKey e u body) e.cache = none)
    (hw : waitStep e env = none)
    (hrun1 : (apiRun e.api env s).1 = .ok r)
    (hst : r.statusCode < 400)
    (httl : ¬ resolveTTL e.api e.cache ≤ 0)
    (hbody : r.body ≠ "")
    (hdec : env.dec r.body = .error de) :
    (execute e env s).1 = .error de ∧
    alookup (execKey e u body) (execute e env s).2 = some (env.strEnc r.body) := by
  rcases hrun : apiRun e.api env s with ⟨rr, s₁⟩
  rw [hrun] at hrun1
  have hrr : rr = .ok r := hrun1
  subst hrr
  have hset : (apiSet e.api env.strEnc s₁ (execKey e u body) r.body e.cache).2 =
      alSet s₁ (execKey e u body) (env.strEnc r.body) := by
    unfold apiSet
    rw [if_neg httl]
    rfl
  simp only [execute, hu, hb, hmiss, hw, hrun, if_neg (by omega : ¬ 400 ≤ r.statusCode),
    decodeStep, if_neg hbody, hdec, hset]
  exact ⟨trivial, alookup_alSet_self s₁ (execKey e u body) (env.strEnc r.body)⟩

theorem c7_witness :
    ((⟨200, "200 OK", "BODY"⟩ : Response).statusCode < 400 ∧
      ¬ resolveTTL ⟨0, "h", false, false, false, "N"⟩ 1 ≤ 0 ∧
      ("BODY" : String) ≠ "") ∧
    (execute
      (⟨⟨0, "h", false, false, false, "N"⟩, some "https://h", "/p", "GET", [], [],
        "", 1, false, true⟩ : EConfig)
      (⟨id, fun _ => none, .ok "", none, .error "na", .ok ⟨200, "200 OK", "BODY"⟩,
        "m", fun _ => .error "boom", ()⟩ : Env Unit) []).1 = .error "boom" ∧
    alookup (execKey
        (⟨⟨0, "h", false, false, false, "N"⟩, some "https://h", "/p", "GET", [], [],
          "", 1, false, true⟩ : EConfig) "https://h" "")
      (execute
        (⟨⟨0, "h", false, false, false, "N"⟩, some "https://h", "/p", "GET", [], [],
          "", 1, false, true⟩ : EConfig)
        (⟨id, fun _ => none, .ok "", none, .error "na", .ok ⟨200, "200 OK", "BODY"⟩,
          "m", fun _ => .error "boom", ()⟩ : Env Unit) []).2 = some "BODY" :=
  ⟨⟨by decide, by decide, by decide⟩,
    c7_decode_failure_preserves_cache_entry
      (⟨⟨0, "h", false, false, false, "N"⟩, some "https://h", "/p", "GET", [], [],
        "", 1, false, true⟩ : EConfig)
      (⟨id, fun _ => none, .ok "", none, .error "na", .ok ⟨200, "200 OK", "BODY"⟩,
        "m", fun _ => .error "boom", ()⟩ : Env Unit)
      [] "https://h" "" "boom" ⟨200, "200 OK", "BODY"⟩
      rfl rfl rfl rfl rfl (by decide) (by decide) (by decide) rfl⟩

/-- C10: when the resolved response bytes are empty — a cache hit holding
empty bytes, or a network success (status < 400) with an empty body —
decoding is skipped (the theorem holds for every decoder, including an
always-failing one) and `execute` returns the zero value of the target
type with no error. -/
theorem c10_empty_bytes_skip_decode {ρ : Type} (e : EConfig) (env : Env ρ)
    (s : StoreT) (u body : String)
    (hu : e.domainURL = some u) (hb : env.encodeBody = .ok body)
    (h : apiGet e.api env.strDec s (execKey e u body) e.cache = some "" ∨
      (apiGet e.api env.strDec s (execKey e u body) e.cache = none ∧
        waitStep e env = none ∧
        ∃ r, (apiRun e.api env s).1 = .ok r ∧ r.statusCode < 400 ∧ r.body = "")) :
    (execute e env s).1 = .ok env.zero := by
  rcases h with hhit | ⟨hmiss, hw, r, hrun1, hst, hbody⟩
  · simp only [execute, hu, hb, hhit]
    rfl
  · rcases hrun : apiRun e.api env s with ⟨rr, s₁⟩
    rw [hrun] at hrun1
    have hrr : rr = .ok r := hrun1
    subst hrr
    simp only [execute, hu, hb, hmiss, hw, hrun,
      if_neg (by omega : ¬ 400 ≤ r.statusCode), hbody]
    rfl

theorem c10_witness :
    ((apiRun (⟨0, "h", false, false, false, "N"⟩ : APIModel)
        (⟨id, fun _ => none, .ok "", none, .error "na", .ok ⟨204, "204 No Content", ""⟩,
          "m", fun _ => .error "boom", ()⟩ : Env Unit) []).1 =
        .ok ⟨204, "204 No Content", ""⟩ ∧
      (⟨204, "204 No Content", ""⟩ : Response).statusCode < 400) ∧
    (execute
      (⟨⟨0, "h", false, false, false, "N"⟩, some "https://h", "/p", "GET", [], [],
        "", 1, false, true⟩ : EConfig)
      (⟨id, fun _ => none, .ok "", none, .error "na", .ok ⟨204, "204 No Content", ""⟩,
        "m", fun _ => .error "boom", ()⟩ : Env Unit) []).1 = .ok () :=
  ⟨⟨rfl, by decide⟩,
    c10_empty_bytes_skip_decode
      (⟨⟨0, "h", false, false, false, "N"⟩, some "https://h", "/p", "GET", [], [],
        "", 1, false, true⟩ : EConfig)
      (⟨id, fun _ => none, .ok "", none, .error "na", .ok ⟨204, "204 No Content", ""⟩,
        "m", fun _ => .error "boom", ()⟩ : Env Unit)
      [] "https://h" "" rfl rfl
      (Or.inr ⟨rfl, rfl, ⟨204, "204 No Content", ""⟩, rfl, by decide, rfl⟩)⟩

/-! ### Rate limiter (limiter.go)

The default `limiter` holds `map[string]*rate.Limiter`; the vendor
token-bucket (`golang.org/x/time/rate`) is abstracted as a `RateBucket`
oracle carrying the outcome of `Allow` and of a blocking `Wait`. Reading a
missing key of a Go map of pointers yields nil, and calling `Allow` on a
nil `*rate.Limiter` dereferences nil — modelled as the `nilDeref` outcome. -/

structure RateBucket where
  allow : Bool
  waitOutcome : Option String
deriving DecidableEq

structure GoLimiter where
  rps : Rat
  limiters : List (String × RateBucket)

inductive CheckOutcome where
  | ok
  | canceled (e : String)
  | nilDeref
deriving DecidableEq

/-- The default `NewLimiter` constructor: empty bucket map. -/
def newLimiterGo (rps : Rat) : GoLimiter :=
  ⟨rps, []⟩

/-- `limiter.Check` (limiter.go:28-36), translated literally: the bucket
for `key` is (re)created only when `key` is *already present* in the map
(`if _, ok := l.limiters[key]; ok`), then `l.limiters[key].Allow()` is
called — a nil dereference whenever the key is absent. `fresh` is the
bucket `rate.NewLimiter(rate.Limit(l.rps), 1)` would return. -/
def limiterCheck (l : GoLimiter) (key : String) (fresh : RateBucket) :
    CheckOutcome × GoLimiter :=
  let l' := if (alookup key l.limiters).isSome then
      { l with limiters := alSet l.limiters key fresh }
    else l
  match alookup key l'.limiters with
  | none => (.nilDeref, l')
  | some b =>
    if b.allow then (.ok, l')
    else
      match b.waitOutcome with
      | none => (.ok, l')
      | some e => (.canceled e, l')

/-- C4 is the spec's intent and the code violates it: on a freshly
constructed limiter, `Check` never returns nil or blocks — for every rate,
key and vendor-bucket behavior, the very first `Check` call dereferences a
nil `*rate.Limiter` and panics, because the presence condition guarding the
bucket allocation is inverted (and since the map is only written under that
inverted condition, it stays empty forever). -/
theorem c4_first_check_dereferences_nil (rps : Rat) (key : String) (fresh : RateBucket) :
    (limiterCheck (newLimiterGo rps) key fresh).1 = CheckOutcome.nilDeref :=
  rfl

/-! ### Resource Descriptor display-name derivation (api.go:117-124) -/

/-- `strings.Split` with a one-character separator. -/
def splitOnChar (c : Char) : List Char → List (List Char)
  | [] => [[]]
  | x :: xs =>
    match splitOnChar c xs with
    | [] => [[]]
    | y :: ys => if x = c then [] :: y :: ys else (x :: y) :: ys

/-- `strings.Split(hostname, ".")`. -/
def goSplitDots (s : String) : List String :=
  (splitOnChar '.' s.data).map String.mk

/-- The `switch len(p)` dispatch deriving the display name from the
hostname labels; `title` is `cases.Title(language.English).String`, an
external collaborator. -/
def deriveName (title : String → String) (host : String) : String :=
  let p := goSplitDots host
  if p.length = 1 then title (p.getD 0 "") else title (p.getD (p.length - 2) "")

/-- `APIFromURL`'s name resolution: the `Name` query option wins; an unset
(or empty) `Name` falls back to the hostname derivation. -/
def apiNameOf (title : String → String) (q : List (String × String)) (host : String) :
    String :=
  let n := (alookup "Name" q).getD ""
  if n = "" then deriveName title host else n

theorem splitOnChar_ne_nil (c : Char) (l : List Char) : splitOnChar c l ≠ [] := by
  induction l with
  | nil => simp [splitOnChar]
  | cons x xs ih =>
    unfold splitOnChar
    rcases h : splitOnChar c xs with _ | ⟨y, ys⟩
    · simp
    · by_cases hx : x = c <;> simp [hx]

theorem splitOnChar_singleton (c : Char) (l m : List Char)
    (h : splitOnChar c l = [m]) : m = l := by
  induction l generalizing m with
  | nil =>
    simp only [splitOnChar, List.cons.injEq, and_true] at h
    exact h.symm
  | cons x xs ih =>
    unfold splitOnChar at h
    rcases hs : splitOnChar c xs with _ | ⟨y, ys⟩
    · exact absurd hs (splitOnChar_ne_nil c xs)
    · rw [hs] at h
      have h' : (if x = c then ([] : List Char) :: y :: ys else (x :: y) :: ys) =
          [m] := h
      by_cases hx : x = c
      · rw [if_pos hx] at h'
        simp at h'
      · rw [if_neg hx] at h'
        simp only [List.cons.injEq] at h'
        obtain ⟨hm, hys⟩ := h'
        rw [hys] at hs
        rw [← hm, ih y hs]

theorem goSplitDots_singleton (host : String) (h : (goSplitDots host).length = 1) :
    goSplitDots host = [host] := by
  unfold goSplitDots at h ⊢
  rcases hs : splitOnChar '.' host.data with _ | ⟨y, ys⟩
  · exact absurd hs (splitOnChar_ne_nil _ _)
  · rw [hs, List.length_map] at h
    have hys : ys = [] := by
      cases ys with
      | nil => rfl
      | cons z zs =>
        rw [List.length_cons, List.length_cons] at h
        omega
    subst hys
    have hy : y = host.data := splitOnChar_singleton '.' host.data y hs
    subst hy
    rfl

theorem getD_append_two {α : Type} (pre : List α) (a b d : α) :
    (pre ++ [a, b]).getD pre.length d = a := by
  induction pre with
  | nil => rfl
  | cons x xs ih => simpa using ih

/-- C9: when the connection-string query carries no `Name` option, the
display name is the title-cased second-to-last dot-separated hostname
label when there are two or more labels, and the title-cased hostname
itself when it is a single label. -/
theorem c9_api_name_from_host (title : String → String) (q : List (String × String))
    (host : String) (hq : alookup "Name" q = none) :
    (∀ pre a b, goSplitDots host = pre ++ [a, b] → apiNameOf title q host = title a) ∧
    ((goSplitDots host).length = 1 → apiNameOf title q host = title host) := by
  have hn : apiNameOf title q host = deriveName title host := by
    unfold apiNameOf
    rw [hq]
    rfl
  constructor
  · intro pre a b hsplit
    rw [hn]
    unfold deriveName
    rw [hsplit]
    have hlen : (pre ++ [a, b]).length = pre.length + 2 := by simp
    rw [if_neg (by omega)]
    rw [hlen]
    have hidx : pre.length + 2 - 2 = pre.length := by omega
    rw [hidx, getD_append_two]
  · intro h1
    rw [hn]
    unfold deriveName
    rw [goSplitDots_singleton host h1]
    rfl

theorem c9_witness :
    (alookup "Name" ([] : List (String × String)) = none ∧
      goSplitDots "api.test.com" = ["api"] ++ ["test", "com"]) ∧
    apiNameOf (fun s => "T" ++ s) [] "api.test.com" = "Ttest" :=
  ⟨⟨rfl, by decide⟩,
    ((c9_api_name_from_host (fun s => "T" ++ s) [] "api.test.com" rfl).1
      ["api"] "test" "com" (by decide))⟩

/-! ### Builder reference semantics (endpoint.go:79-188)

`Endpoint` is passed by value, but two of its fields are Go reference
types — the `headers` and `params` maps — and `domain` is a pointer to the
shared `API`. The heap of allocated maps and the shared `API` are made
explicit in a `World`; an endpoint holds indices into the heap. This is
exactly what decides whether a builder method "mutates prior references". -/

structure BAPI where
  name : String
  hasErrors : Bool
deriving DecidableEq

structure World where
  api : BAPI
  heap : List (List (String × String))
deriving DecidableEq

structure BEndpoint where
  name : String
  path : String
  method : String
  bodyVal : String
  headersRef : Option Nat
  paramsRef : Nat
  key : String
  cache : Int
  ctx : Nat
  lock : Bool
deriving DecidableEq

namespace Builder

def heapWrite (h : List (List (String × String))) (i : Nat) (n v : String) :
    List (List (String × String)) :=
  h.set i (alSet (h.getD i []) n v)

/-- `Endpoint.Header`: allocates a fresh map only when `e.headers` is nil,
otherwise writes into the existing (possibly shared) map. -/
def Header (e : BEndpoint) (w : World) (n v : String) : BEndpoint × World :=
  match e.headersRef with
  | none =>
    ({ e with headersRef := some w.heap.length },
     { w with heap := w.heap ++ [alSet [] n v] })
  | some r => (e, { w with heap := heapWrite w.heap r n v })

/-- `Endpoint.Query`: `e.params.Set(name, value)` writes into the existing
params map (both constructors allocate it). -/
def Query (e : BEndpoint) (w : World) (n v : String) : BEndpoint × World :=
  (e, { w with heap := heapWrite w.heap e.paramsRef n v })

/-- `Endpoint.Errors`: `e.domain.Errors = fn` writes through the shared
`*API` pointer. -/
def Errors (e : BEndpoint) (w : World) : BEndpoint × World :=
  (e, { w with api := { w.api with hasErrors := true } })

/-- `Endpoint.Method`. -/
def Method (e : BEndpoint) (w : World) (n : String) : BEndpoint × World :=
  ({ e with method := n }, w)

/-- `Endpoint.Name`: reads the shared Descriptor's name, writes only the
copy's field. -/
def Name (e : BEndpoint) (w : World) (n : String) : BEndpoint × World :=
  ({ e with name := w.api.name ++ ":" ++ n }, w)

/-- `Endpoint.Body`. -/
def Body (e : BEndpoint) (w : World) (b : String) : BEndpoint × World :=
  ({ e with bodyVal := b }, w)

/-- `Endpoint.Cache`: appends the variadic override names to `e.key` and
sets the duration, on the copy. -/
def Cache (e : BEndpoint) (w : World) (d : Int) (names : List String) :
    BEndpoint × World :=
  ({ e with key := e.key ++ String.join names, cache := d }, w)

/-- `Endpoint.Lock`. -/
def Lock (e : BEndpoint) (w : World) (b : Bool) : BEndpoint × World :=
  ({ e with lock := b }, w)

/-- `Endpoint.Context` (the context value is opaque). -/
def Context (e : BEndpoint) (w : World) (t : Nat) : BEndpoint × World :=
  ({ e with ctx := t }, w)

/-- Everything observable through a prior endpoint value: its own fields,
the contents of the maps it references, and the shared Descriptor. -/
def view (e : BEndpoint) (w : World) :
    BEndpoint × List (String × String) × List (String × String) × BAPI :=
  (e,
   (match e.headersRef with
    | none => []
    | some r => w.heap.getD r []),
   w.heap.getD e.paramsRef [],
   w.api)

end Builder

theorem getD_set_self {α : Type} (l : List α) (i : Nat) (x d : α) (h : i < l.length) :
    (l.set i x).getD i d = x := by
  induction l generalizing i with
  | nil => cases h
  | cons a t ih =>
    cases i with
    | zero => rfl
    | succ n => simpa using ih n (by simpa using h)

theorem getD_append_lt {α : Type} (l l' : List α) (i : Nat) (d : α)
    (h : i < l.length) : (l ++ l').getD i d = l.getD i d := by
  induction l generalizing i with
  | nil => cases h
  | cons a t ih =>
    cases i with
    | zero => rfl
    | succ n => simpa using ih n (by simpa using h)

/-- C8, counterexample: `Endpoint.Errors` mutates state shared with other
calls. With a shared Descriptor that has no error mapper, calling `Errors`
on one endpoint value changes what the *prior* endpoint value observes
(the Descriptor reached through `e.domain` now carries the mapper), so
"after the call, e itself and the Descriptor shared through e.domain are
observationally unchanged" is false. -/
theorem c8_counterexample :
    Builder.view ⟨"", "/p", "GET", "", some 0, 0, "", 0, 0, false⟩
        (Builder.Errors ⟨"", "/p", "GET", "", some 0, 0, "", 0, 0, false⟩
          ⟨⟨"Api", false⟩, [[]]⟩).2 ≠
      Builder.view ⟨"", "/p", "GET", "", some 0, 0, "", 0, 0, false⟩
        ⟨⟨"Api", false⟩, [[]]⟩ := by
  decide

/-- C8, amended: the builder methods writing plain value fields (`Method`,
`Name`, `Body`, `Cache`, `Lock`, `Context`) return a modified copy and
leave all shared state untouched; `Header` with a nil headers map
allocates a fresh map, leaving every existing map intact; but `Header`
with an existing map and `Query` write into the shared map in place —
the update is visible through the receiver and every other value sharing
that map — and `Errors` leaves the endpoint value itself unchanged while
writing the error mapper through the shared Descriptor pointer. -/
theorem c8_builder_sharing (e : BEndpoint) (w : World) (n v bdy nm : String)
    (d : Int) (bl : Bool) (t r : Nat) (names : List String) :
    (Builder.Method e w n).2 = w ∧
    (Builder.Name e w nm).2 = w ∧
    (Builder.Body e w bdy).2 = w ∧
    (Builder.Cache e w d names).2 = w ∧
    (Builder.Lock e w bl).2 = w ∧
    (Builder.Context e w t).2 = w ∧
    (e.headersRef = none → ∀ i, i < w.heap.length →
      (Builder.Header e w n v).2.heap.getD i [] = w.heap.getD i []) ∧
    (e.headersRef = some r → r < w.heap.length →
      alookup n ((Builder.Header e w n v).2.heap.getD r []) = some v) ∧
    (e.paramsRef < w.heap.length →
      alookup n ((Builder.Query e w n v).2.heap.getD e.paramsRef []) = some v) ∧
    ((Builder.Errors e w).1 = e ∧ (Builder.Errors e w).2.api.hasErrors = true ∧
      (Builder.Errors e w).2.heap = w.heap) := by
  refine ⟨rfl, rfl, rfl, rfl, rfl, rfl, ?_, ?_, ?_, rfl, rfl, rfl⟩
  · intro hnone i hi
    simp only [Builder.Header, hnone]
    exact getD_append_lt w.heap _ i [] hi
  · intro hsome hr
    simp only [Builder.Header, hsome, Builder.heapWrite]
    rw [getD_set_self _ _ _ _ hr]
    exact alookup_alSet_self _ n v
  · intro hp
    simp only [Builder.Query, Builder.heapWrite]
    rw [getD_set_self _ _ _ _ hp]
    exact alookup_alSet_self _ n v

theorem c8_witness :
    ((⟨"", "/p", "GET", "", some 0, 0, "", 0, 0, false⟩ : BEndpoint).headersRef =
        some 0 ∧
      0 < (⟨⟨"Api", false⟩, [[]]⟩ : World).heap.length) ∧
    alookup "A"
      ((Builder.Header ⟨"", "/p", "GET", "", some 0, 0, "", 0, 0, false⟩
          ⟨⟨"Api", false⟩, [[]]⟩ "A" "x").2.heap.getD 0 []) = some "x" :=
  ⟨⟨rfl, by decide⟩,
    (c8_builder_sharing ⟨"", "/p", "GET", "", some 0, 0, "", 0, 0, false⟩
        ⟨⟨"Api", false⟩, [[]]⟩ "A" "x" "" "" 0 false 0 0 []).2.2.2.2.2.2.2.1
      rfl (by decide)⟩

end Ion
